import Mathlib

/-!
Verification of the iodata utility module (`iodata/utils.py`).

Shallow embedding conventions:
* Python floats are modelled as `ℚ` (exact rationals), except where a square
  root is computed (`volume`), where `ℝ` is used.
* Python exceptions are modelled with `Except Err`; the error taxonomy of the
  specification (`ValueRange`, `InvalidArgument`, `TypeMismatch`) names the
  constructors.
* The external generalized eigensolver `scipy.linalg.eigh` is an injected
  parameter; its documented contract (ascending eigenvalues solving
  `a v = λ b v`) is the predicate `IsGenEigh`.
-/

namespace Iodata

/-- Error taxonomy of the specification: `ValueRange` corresponds to the
`ValueError` raised by `check_dm`, `InvalidArgument` to the `ValueError`
raised by `volume` and `strtobool`, `TypeMismatch` to attribute-validation
failures. -/
inductive Err where
  | ValueRange : Err
  | InvalidArgument : Err
  | TypeMismatch : Err
  deriving DecidableEq, Repr

/-! ## LineIterator

Embedding of the `LineIterator` class.  The mutable object state is the
record below; the open file handle is modelled by the list `lines` of
remaining physical lines.  Each method becomes a state-passing function. -/

/-- State of a `LineIterator`: `filename`, the remaining physical lines of
the open file, the `lineno` counter and the push-back `stack`. -/
structure LineIterator where
  filename : String
  lines : List String
  lineno : ℤ
  stack : List String
  deriving DecidableEq, Repr

/-- Embedding of `LineIterator.__init__` composed with `__enter__`:
`lineno = 0`, empty `stack`, and the opened file contents `ls`. -/
def LineIterator.init (filename : String) (ls : List String) : LineIterator :=
  { filename := filename, lines := ls, lineno := 0, stack := [] }

/-- Embedding of `LineIterator.__next__`: increment `lineno`, then pop the
push-back stack if non-empty, else read the next physical line; return
`none` (StopIteration) when the file is exhausted.  The returned state
carries the incremented counter in every case, as in the source (the
increment happens before the read). -/
def LineIterator.next (s : LineIterator) : Option String × LineIterator :=
  let s1 : LineIterator := { s with lineno := s.lineno + 1 }
  match s1.stack with
  | l :: rest => (some l, { s1 with stack := rest })
  | [] =>
    match s1.lines with
    | l :: rest => (some l, { s1 with lines := rest })
    | [] => (none, s1)

/-- Embedding of `LineIterator.back`: push `line` onto the stack and
decrease `lineno` by one. -/
def LineIterator.back (s : LineIterator) (line : String) : LineIterator :=
  { s with stack := line :: s.stack, lineno := s.lineno - 1 }

/-! ## strtobool -/

/-- Embedding of the `STRTOBOOL` dictionary as an association list, in
source order. -/
def STRTOBOOL : List (String × Bool) :=
  [("y", true), ("yes", true), ("t", true), ("true", true), ("on", true),
   ("1", true),
   ("n", false), ("no", false), ("f", false), ("false", false),
   ("off", false), ("0", false)]

/-- Embedding of `strtobool`: look the lowercased string up in `STRTOBOOL`;
a missing key raises `ValueError` (`InvalidArgument` in the spec taxonomy). -/
def strtobool (value : String) : Except Err Bool :=
  match STRTOBOOL.lookup value.toLower with
  | some result => .ok result
  | none => .error .InvalidArgument

/-! ## Theorems for claims C4, C5, C7 -/

/-- Helper: the lookup in `STRTOBOOL` fully cased on the key. -/
theorem STRTOBOOL.lookup_eq (t : String) :
    STRTOBOOL.lookup t =
      if t ∈ ["y", "yes", "t", "true", "on", "1"] then some true
      else if t ∈ ["n", "no", "f", "false", "off", "0"] then some false
      else none := by
  simp only [STRTOBOOL, List.lookup, List.mem_cons, List.not_mem_nil,
    or_false, beq_iff_eq]
  by_cases h1 : t = "y" <;> by_cases h2 : t = "yes" <;>
    by_cases h3 : t = "t" <;> by_cases h4 : t = "true" <;>
    by_cases h5 : t = "on" <;> by_cases h6 : t = "1" <;>
    by_cases h7 : t = "n" <;> by_cases h8 : t = "no" <;>
    by_cases h9 : t = "f" <;> by_cases h10 : t = "false" <;>
    by_cases h11 : t = "off" <;> by_cases h12 : t = "0" <;>
    simp_all [beq_eq_decide]

/-- Helper: no token is both truthy and falsy in the `STRTOBOOL` table. -/
theorem not_falsy_of_truthy (t : String)
    (h : t ∈ ["y", "yes", "t", "true", "on", "1"]) :
    t ∉ ["n", "no", "f", "false", "off", "0"] := by
  fin_cases h <;> decide

/-- C4: `strtobool` is a case-insensitive table lookup: it returns `true`
exactly when the lowercased input is a truthy token, `false` exactly when it
is a falsy token, and raises `InvalidArgument` for every other string. -/
theorem strtobool_spec (s : String) :
    (strtobool s = .ok true ↔ s.toLower ∈ ["y", "yes", "t", "true", "on", "1"]) ∧
    (strtobool s = .ok false ↔ s.toLower ∈ ["n", "no", "f", "false", "off", "0"]) ∧
    (strtobool s = .error .InvalidArgument ↔
      s.toLower ∉ ["y", "yes", "t", "true", "on", "1"] ∧
      s.toLower ∉ ["n", "no", "f", "false", "off", "0"]) := by
  unfold strtobool
  rw [STRTOBOOL.lookup_eq]
  split_ifs with h1 h2
  · have h2 := not_falsy_of_truthy _ h1
    simp [h1, h2]
  · simp [h1, h2]
  · simp [h1, h2]

/-- C5: `back` followed by `next` is the identity on the cursor state: the
pushed line is returned and the counter, stack, remaining lines and
filename are all restored to their values before the `back` call. -/
theorem back_then_next (s : LineIterator) (l : String) :
    (s.back l).next = (some l, s) := by
  cases s with
  | mk filename lines lineno stack =>
    simp [LineIterator.back, LineIterator.next]

/-- C7 counterexample: calling `back` on a fresh iterator strictly decreases
the line counter (from 0 to -1), so the counter is not monotonically
increasing over the cursor's lifetime. -/
theorem lineno_not_monotone :
    ((LineIterator.init "f" []).back "x").lineno <
      (LineIterator.init "f" []).lineno := by
  decide

/-- C7 amended: the line counter starts at 0 and `next` always increases it
by exactly one; `back` is the only operation that decreases it, and does so
by exactly one. -/
theorem lineno_dynamics (fn : String) (ls : List String)
    (s : LineIterator) (l : String) :
    (LineIterator.init fn ls).lineno = 0 ∧
    (s.next).2.lineno = s.lineno + 1 ∧
    (s.back l).lineno = s.lineno - 1 := by
  refine ⟨rfl, ?_, rfl⟩
  cases s with
  | mk filename lines lineno stack =>
    cases stack with
    | cons a rest => simp [LineIterator.next]
    | nil =>
      cases lines with
      | cons a rest => simp [LineIterator.next]
      | nil => simp [LineIterator.next]

/-! ## derive_naturals and check_dm

The matrices of the source are square real arrays of shape `(nbasis, nbasis)`;
the external solver `scipy.linalg.eigh(a, b)` is injected as a parameter and
specified by the predicate `IsGenEigh` below, following its documented
contract. -/

/-- Square rational matrix of dimension `n`, modelling a real `(n, n)` array. -/
abbrev Mat (n : ℕ) := Matrix (Fin n) (Fin n) ℚ

/-- Rational vector of dimension `n`, modelling a real `(n,)` array. -/
abbrev Vec (n : ℕ) := Fin n → ℚ

/-- Contract of the external generalized symmetric eigensolver
`scipy.linalg.eigh(a, b)`: the eigenvalues `evals` are returned in ascending
order, and for each `j` the `j`-th column of `evecs` solves the generalized
eigenvalue problem `a · v = evals j · (b · v)`. -/
def IsGenEigh (n : ℕ) (a b : Mat n) (evals : Vec n) (evecs : Mat n) : Prop :=
  Monotone evals ∧
  ∀ j : Fin n,
    a.mulVec (fun i => evecs i j) = evals j • b.mulVec (fun i => evecs i j)

/-- Embedding of `derive_naturals`: form `sds = overlap.T @ (dm @ overlap)`,
hand it with the metric `overlap` to the injected eigensolver `eigh`, slice
the eigenvector matrix to the column count of `overlap` (which keeps all `n`
columns, since everything is square) and return `(coeffs, occs)`. -/
def derive_naturals (n : ℕ) (eigh : Mat n → Mat n → Vec n × Mat n)
    (dm overlap : Mat n) : Mat n × Vec n :=
  let sds := overlap.transpose * (dm * overlap)
  let r := eigh sds overlap
  let evecs := r.2
  let coeffs : Mat n := Matrix.of fun i j => evecs i j
  (coeffs, r.1)

/-- Embedding of the numpy reduction `.min()` on a non-empty `(n,)` array. -/
def npmin (n : ℕ) [NeZero n] (f : Vec n) : ℚ :=
  Finset.univ.inf' ⟨⟨0, Nat.pos_of_ne_zero (NeZero.ne n)⟩, Finset.mem_univ _⟩ f

/-- Embedding of the numpy reduction `.max()` on a non-empty `(n,)` array. -/
def npmax (n : ℕ) [NeZero n] (f : Vec n) : ℚ :=
  Finset.univ.sup' ⟨⟨0, Nat.pos_of_ne_zero (NeZero.ne n)⟩, Finset.mem_univ _⟩ f

/-- Embedding of `check_dm`: derive the natural occupations, raise
`ValueError` (`ValueRange`) when the minimum is below `-eps`, otherwise raise
`ValueError` when the maximum exceeds `occ_max + eps`, otherwise return
`None`. -/
def check_dm (n : ℕ) [NeZero n] (eigh : Mat n → Mat n → Vec n × Mat n)
    (dm overlap : Mat n) (eps occ_max : ℚ) : Except Err Unit :=
  let occupations := (derive_naturals n eigh dm overlap).2
  if npmin n occupations < -eps then .error .ValueRange
  else if occ_max + eps < npmax n occupations then .error .ValueRange
  else .ok ()

/-! ## set_four_index_element -/

/-- Rank-4 rational array of shape `(n, n, n, n)`. -/
abbrev Arr4 (n : ℕ) := Fin n → Fin n → Fin n → Fin n → ℚ

/-- Single numpy element assignment `a[j0, j1, j2, j3] = v`. -/
def setElem4 (n : ℕ) (a : Arr4 n) (j0 j1 j2 j3 : Fin n) (v : ℚ) : Arr4 n :=
  fun k0 k1 k2 k3 =>
    if (k0, k1, k2, k3) = (j0, j1, j2, j3) then v else a k0 k1 k2 k3

/-- Embedding of `set_four_index_element`: the eight assignments of the
source, in source order. -/
def set_four_index_element (n : ℕ) (a : Arr4 n) (i0 i1 i2 i3 : Fin n)
    (v : ℚ) : Arr4 n :=
  let a1 := setElem4 n a i0 i1 i2 i3 v
  let a2 := setElem4 n a1 i1 i0 i3 i2 v
  let a3 := setElem4 n a2 i2 i1 i0 i3 v
  let a4 := setElem4 n a3 i0 i3 i2 i1 v
  let a5 := setElem4 n a4 i2 i3 i0 i1 v
  let a6 := setElem4 n a5 i3 i2 i1 i0 v
  let a7 := setElem4 n a6 i1 i2 i3 i0 v
  setElem4 n a7 i3 i0 i1 i2 v

/-! ## Theorems for claims C1, C2, C9 -/

/-- C2: when the injected eigensolver meets its contract on the transformed
matrix `Sᵀ·DM·S` with metric `S`, `derive_naturals` returns occupations that
are exactly the solver's ascending eigenvalues (not reordered), and
coefficient columns that are exactly the corresponding eigenvectors, so each
column `c_j` solves `(Sᵀ·DM·S) c_j = occs j • (S c_j)`. -/
theorem derive_naturals_spec (n : ℕ) (eigh : Mat n → Mat n → Vec n × Mat n)
    (dm overlap : Mat n) (hsym : dm.IsSymm)
    (heigh : IsGenEigh n (overlap.transpose * dm * overlap) overlap
      (eigh (overlap.transpose * (dm * overlap)) overlap).1
      (eigh (overlap.transpose * (dm * overlap)) overlap).2) :
    Monotone (derive_naturals n eigh dm overlap).2 ∧
    (∀ j : Fin n,
      (overlap.transpose * dm * overlap).mulVec
          (fun i => (derive_naturals n eigh dm overlap).1 i j) =
        (derive_naturals n eigh dm overlap).2 j •
          overlap.mulVec (fun i => (derive_naturals n eigh dm overlap).1 i j)) ∧
    (derive_naturals n eigh dm overlap).2 =
      (eigh (overlap.transpose * (dm * overlap)) overlap).1 ∧
    (derive_naturals n eigh dm overlap).1 =
      (eigh (overlap.transpose * (dm * overlap)) overlap).2 := by
  refine ⟨heigh.1, ?_, rfl, rfl⟩
  intro j
  exact heigh.2 j

/-- Constant eigensolver used as a concrete instance of the solver contract
in witnesses: it returns all-one eigenvalues with the identity as
eigenvector matrix, which satisfies the contract when both input matrices
are the identity. -/
def eighConst1 : Mat 1 → Mat 1 → Vec 1 × Mat 1 :=
  fun _ _ => (fun _ => 1, 1)

/-- Witness for C2 at dimension 1 with `dm = overlap = 1` and the constant
solver `eighConst1`, which meets the contract there. -/
theorem derive_naturals_spec_witness :
    Monotone (derive_naturals 1 eighConst1 1 1).2 ∧
    (∀ j : Fin 1,
      ((1 : Mat 1).transpose * 1 * 1).mulVec
          (fun i => (derive_naturals 1 eighConst1 1 1).1 i j) =
        (derive_naturals 1 eighConst1 1 1).2 j •
          (1 : Mat 1).mulVec (fun i => (derive_naturals 1 eighConst1 1 1).1 i j)) ∧
    (derive_naturals 1 eighConst1 1 1).2 =
      (eighConst1 ((1 : Mat 1).transpose * (1 * 1)) 1).1 ∧
    (derive_naturals 1 eighConst1 1 1).1 =
      (eighConst1 ((1 : Mat 1).transpose * (1 * 1)) 1).2 :=
  derive_naturals_spec 1 eighConst1 1 1 Matrix.transpose_one
    ⟨monotone_const, by
      intro j
      simp [eighConst1, Matrix.transpose_one, Matrix.one_mulVec]⟩

/-- C1: `check_dm` raises `ValueRange` exactly when the minimum derived
occupation is below `-eps` or the maximum exceeds `occ_max + eps`, and
otherwise returns normally with the unit value. -/
theorem check_dm_spec (n : ℕ) [NeZero n]
    (eigh : Mat n → Mat n → Vec n × Mat n) (dm overlap : Mat n)
    (eps occ_max : ℚ) :
    (check_dm n eigh dm overlap eps occ_max = .error .ValueRange ↔
      (npmin n (derive_naturals n eigh dm overlap).2 < -eps ∨
        occ_max + eps < npmax n (derive_naturals n eigh dm overlap).2)) ∧
    (check_dm n eigh dm overlap eps occ_max = .ok () ↔
      ¬(npmin n (derive_naturals n eigh dm overlap).2 < -eps ∨
        occ_max + eps < npmax n (derive_naturals n eigh dm overlap).2)) := by
  simp only [check_dm]
  split_ifs with h1 h2 <;> simp_all

/-- Witness for C1 at dimension 1: with the constant solver all occupations
are 0, which is inside the allowed range, so `check_dm` returns normally. -/
theorem check_dm_spec_witness :
    check_dm 1 eighConst1 1 1 (1 / 10000) 1 = .ok () :=
  (check_dm_spec 1 eighConst1 1 1 (1 / 10000) 1).2.mpr (by
    simp [npmin, npmax, derive_naturals, eighConst1, Finset.univ_unique]
    norm_num)

/-- C9: after `set_four_index_element`, each of the eight symmetric index
tuples holds `v`, and every position outside that set of tuples is
unchanged. -/
theorem set_four_index_element_spec (n : ℕ) (a : Arr4 n)
    (i0 i1 i2 i3 : Fin n) (v : ℚ) :
    (∀ k0 k1 k2 k3 : Fin n,
      (k0, k1, k2, k3) ∈
        ([(i0, i1, i2, i3), (i1, i0, i3, i2), (i2, i1, i0, i3),
          (i0, i3, i2, i1), (i2, i3, i0, i1), (i3, i2, i1, i0),
          (i1, i2, i3, i0), (i3, i0, i1, i2)] :
          List (Fin n × Fin n × Fin n × Fin n)) →
      set_four_index_element n a i0 i1 i2 i3 v k0 k1 k2 k3 = v) ∧
    (∀ k0 k1 k2 k3 : Fin n,
      (k0, k1, k2, k3) ∉
        ([(i0, i1, i2, i3), (i1, i0, i3, i2), (i2, i1, i0, i3),
          (i0, i3, i2, i1), (i2, i3, i0, i1), (i3, i2, i1, i0),
          (i1, i2, i3, i0), (i3, i0, i1, i2)] :
          List (Fin n × Fin n × Fin n × Fin n)) →
      set_four_index_element n a i0 i1 i2 i3 v k0 k1 k2 k3 =
        a k0 k1 k2 k3) := by
  constructor
  · intro k0 k1 k2 k3 ht
    fin_cases ht <;> simp [set_four_index_element, setElem4]
  · intro k0 k1 k2 k3 ht
    simp only [List.mem_cons, List.not_mem_nil, or_false, not_or] at ht
    obtain ⟨h1, h2, h3, h4, h5, h6, h7, h8⟩ := ht
    simp [set_four_index_element, setElem4, h1, h2, h3, h4, h5, h6, h7, h8]

/-- Witness for C9 at `n = 2`, the zero array, indices `(0, 1, 0, 1)` and
value 5: the tuple `(0, 1, 0, 1)` is written and `(1, 1, 1, 1)` is
untouched. -/
theorem set_four_index_element_spec_witness :
    set_four_index_element 2 (fun _ _ _ _ => 0) 0 1 0 1 5 0 1 0 1 = 5 ∧
    set_four_index_element 2 (fun _ _ _ _ => 0) 0 1 0 1 5 1 1 1 1 = 0 :=
  ⟨(set_four_index_element_spec 2 (fun _ _ _ _ => 0) 0 1 0 1 5).1 0 1 0 1
      (by decide),
   (set_four_index_element_spec 2 (fun _ _ _ _ => 0) 0 1 0 1 5).2 1 1 1 1
      (by decide)⟩

/-! ## volume

The cell vectors are rows of a real `(x, 3)` array, modelled as a list of
vectors `Fin 3 → ℝ`.  The real field is used here (instead of `ℚ`) because
the Euclidean norm takes a square root. -/

/-- Embedding of `numpy.linalg.norm` on a length-3 real vector: the square
root of the sum of squared entries. -/
noncomputable def np_norm3 (v : Fin 3 → ℝ) : ℝ :=
  Real.sqrt (v 0 ^ 2 + v 1 ^ 2 + v 2 ^ 2)

/-- Embedding of `numpy.cross` on two length-3 real vectors. -/
def np_cross (u v : Fin 3 → ℝ) : Fin 3 → ℝ :=
  ![u 1 * v 2 - u 2 * v 1, u 2 * v 0 - u 0 * v 2, u 0 * v 1 - u 1 * v 0]

/-- Embedding of `numpy.linalg.det` on a 3 × 3 real matrix given by its
three rows, written out by the rule of Sarrus. -/
def np_det3 (r0 r1 r2 : Fin 3 → ℝ) : ℝ :=
  r0 0 * r1 1 * r2 2 + r0 1 * r1 2 * r2 0 + r0 2 * r1 0 * r2 1 -
    r0 2 * r1 1 * r2 0 - r0 0 * r1 2 * r2 1 - r0 1 * r1 0 * r2 2

/-- Embedding of `volume`: dispatch on the number of rows, in source order
(one row: norm; two rows: norm of the cross product; three rows: signed
determinant; anything else: `ValueError`, `InvalidArgument` in the spec
taxonomy). -/
noncomputable def volume (cellvecs : List (Fin 3 → ℝ)) : Except Err ℝ :=
  match cellvecs with
  | [v] => .ok (np_norm3 v)
  | [u, v] => .ok (np_norm3 (np_cross u v))
  | [u, v, w] => .ok (np_det3 u v w)
  | _ => .error .InvalidArgument

/-- Reference function stating claim C3 in the spec's words, with the
mathematical notions taken from the mathematical library: the Euclidean
norm on `EuclideanSpace ℝ (Fin 3)`, the cross product `crossProduct`, and
the matrix determinant `Matrix.det`. -/
noncomputable def volume_ref (cellvecs : List (Fin 3 → ℝ)) : Except Err ℝ :=
  match cellvecs with
  | [v] => .ok ‖(WithLp.equiv 2 (Fin 3 → ℝ)).symm v‖
  | [u, v] => .ok ‖(WithLp.equiv 2 (Fin 3 → ℝ)).symm (crossProduct u v)‖
  | [u, v, w] => .ok (Matrix.det (Matrix.of ![u, v, w]))
  | _ => .error .InvalidArgument

/-- Helper: the embedded numpy norm is the Euclidean norm. -/
theorem np_norm3_eq_norm (v : Fin 3 → ℝ) :
    np_norm3 v = ‖(WithLp.equiv 2 (Fin 3 → ℝ)).symm v‖ := by
  rw [EuclideanSpace.norm_eq]
  simp [np_norm3, WithLp.equiv_symm_pi_apply, Fin.sum_univ_three,
    Real.norm_eq_abs, sq_abs]

/-- Helper: the embedded numpy cross product is the cross product of the
mathematical library. -/
theorem np_cross_eq_crossProduct (u v : Fin 3 → ℝ) :
    np_cross u v = crossProduct u v := by
  rw [cross_apply]
  rfl

/-- Helper: the embedded numpy determinant is the determinant of the 3 × 3
matrix with the given rows. -/
theorem np_det3_eq_det (r0 r1 r2 : Fin 3 → ℝ) :
    np_det3 r0 r1 r2 = Matrix.det (Matrix.of ![r0, r1, r2]) := by
  rw [Matrix.det_fin_three]
  simp [np_det3, Matrix.of_apply]
  ring

/-- C3: `volume` agrees with the specification reference on every input:
one row gives its Euclidean norm, two rows give the norm of their cross
product, three rows give the determinant of the 3 × 3 matrix, and zero or
more than three rows give the `InvalidArgument` error. -/
theorem volume_spec (cellvecs : List (Fin 3 → ℝ)) :
    volume cellvecs = volume_ref cellvecs := by
  rcases cellvecs with _ | ⟨a, _ | ⟨b, _ | ⟨c, _ | ⟨d, rest⟩⟩⟩⟩
  · rfl
  · simp only [volume, volume_ref, np_norm3_eq_norm]
  · simp only [volume, volume_ref, np_norm3_eq_norm, np_cross_eq_crossProduct]
  · simp only [volume, volume_ref, np_det3_eq_det]
  · rfl

/-- C10: on the left-handed basis with rows `(1,0,0)`, `(0,0,1)`, `(0,1,0)`
the function `volume` returns the signed determinant `-1`, a negative
number: no absolute value is taken. -/
theorem volume_signed_negative :
    volume [![1, 0, 0], ![0, 0, 1], ![0, 1, 0]] = .ok (-1) ∧
      ((-1 : ℝ) < 0) := by
  constructor
  · simp only [volume, np_det3]
    norm_num
  · norm_num

/-! ## Cube -/

/-- Shape-carrying model of a numpy real array: a shape together with the
flattened entries. -/
structure PyArray where
  shape : List ℕ
  entries : List ℚ
  deriving DecidableEq, Repr

/-- Modelled from the spec: `validate_shape` from the module `attrutils`
(absent from `src/`) checks an array's shape against a pattern whose
entries are either a fixed dimension or a wildcard; the pattern length
fixes the rank.  Used by the `Cube` field validators
`validate_shape(3)`, `validate_shape(3, 3)` and
`validate_shape(None, None, None)`. -/
def shapeMatches : List (Option ℕ) → List ℕ → Bool
  | [], [] => true
  | some d :: ps, s :: ss => (s == d) && shapeMatches ps ss
  | none :: ps, _ :: ss => shapeMatches ps ss
  | _, _ => false

/-- The `Cube` record: origin, axes and volumetric data arrays. -/
structure Cube where
  origin : PyArray
  axes : PyArray
  data : PyArray
  deriving DecidableEq, Repr

/-- Modelled from the spec: construction of a `Cube` runs the attrs shape
validators on the three fields (origin is a length-3 vector, axes a 3 × 3
matrix, data a rank-3 array) and rejects any violation (`TypeMismatch` in
the spec taxonomy) without building the record. -/
def mkCube (origin axes data : PyArray) : Except Err Cube :=
  if shapeMatches [some 3] origin.shape then
    if shapeMatches [some 3, some 3] axes.shape then
      if shapeMatches [none, none, none] data.shape then
        .ok { origin := origin, axes := axes, data := data }
      else .error .TypeMismatch
    else .error .TypeMismatch
  else .error .TypeMismatch

/-- Helper: the length-3 vector pattern accepts exactly shape `[3]`. -/
theorem shapeMatches_vec3 (s : List ℕ) :
    shapeMatches [some 3] s = true ↔ s = [3] := by
  rcases s with _ | ⟨a, _ | ⟨b, t⟩⟩ <;> simp [shapeMatches]

/-- Helper: the 3 × 3 pattern accepts exactly shape `[3, 3]`. -/
theorem shapeMatches_mat33 (s : List ℕ) :
    shapeMatches [some 3, some 3] s = true ↔ s = [3, 3] := by
  rcases s with _ | ⟨a, _ | ⟨b, _ | ⟨c, t⟩⟩⟩ <;> simp [shapeMatches, and_comm]

/-- Helper: the all-wildcard rank-3 pattern accepts exactly the shapes of
length 3. -/
theorem shapeMatches_rank3 (s : List ℕ) :
    shapeMatches [none, none, none] s = true ↔ s.length = 3 := by
  rcases s with _ | ⟨a, _ | ⟨b, _ | ⟨c, _ | ⟨d, t⟩⟩⟩⟩ <;> simp [shapeMatches]

/-- C8: `Cube` construction succeeds exactly when the origin has shape
`(3,)`, the axes have shape `(3, 3)` and the data is rank 3; and every
successfully built record satisfies those shape invariants on its fields. -/
theorem mkCube_spec (origin axes data : PyArray) :
    ((∃ c, mkCube origin axes data = .ok c) ↔
      origin.shape = [3] ∧ axes.shape = [3, 3] ∧ data.shape.length = 3) ∧
    (∀ c, mkCube origin axes data = .ok c →
      c.origin.shape = [3] ∧ c.axes.shape = [3, 3] ∧
        c.data.shape.length = 3) := by
  unfold mkCube
  split_ifs with h1 h2 h3
  · rw [shapeMatches_vec3] at h1
    rw [shapeMatches_mat33] at h2
    rw [shapeMatches_rank3] at h3
    refine ⟨by simp [h1, h2, h3], ?_⟩
    rintro c hc
    cases hc
    exact ⟨h1, h2, h3⟩
  · rw [shapeMatches_rank3] at h3
    simp [h3]
  · rw [shapeMatches_mat33] at h2
    simp [h2]
  · rw [shapeMatches_vec3] at h1
    simp [h1]

/-- Witness for C8: a concrete well-shaped triple is accepted, and the
record it builds satisfies the three shape invariants. -/
theorem mkCube_spec_witness :
    (∃ c, mkCube ⟨[3], [0, 0, 0]⟩ ⟨[3, 3], []⟩ ⟨[1, 1, 1], [0]⟩ = .ok c) ∧
    ((⟨⟨[3], [0, 0, 0]⟩, ⟨[3, 3], []⟩, ⟨[1, 1, 1], [0]⟩⟩ :
        Cube).origin.shape = [3] ∧
      (⟨⟨[3], [0, 0, 0]⟩, ⟨[3, 3], []⟩, ⟨[1, 1, 1], [0]⟩⟩ :
        Cube).axes.shape = [3, 3] ∧
      (⟨⟨[3], [0, 0, 0]⟩, ⟨[3, 3], []⟩, ⟨[1, 1, 1], [0]⟩⟩ :
        Cube).data.shape.length = 3) :=
  ⟨(mkCube_spec ⟨[3], [0, 0, 0]⟩ ⟨[3, 3], []⟩ ⟨[1, 1, 1], [0]⟩).1.mpr
      (by decide),
   (mkCube_spec ⟨[3], [0, 0, 0]⟩ ⟨[3, 3], []⟩ ⟨[1, 1, 1], [0]⟩).2
      ⟨⟨[3], [0, 0, 0]⟩, ⟨[3, 3], []⟩, ⟨[1, 1, 1], [0]⟩⟩ rfl⟩

/-! ## IOData derived density-matrix accessors -/

/-- Modelled from the spec: a stored orbital set of the container — a
coefficient matrix for the alpha channel with its occupation vector, and
optionally a beta channel pair (absent for a restricted closed-shell
description, where alpha and beta share coefficients). -/
structure Orbitals (n nfn : ℕ) where
  coeffs_alpha : Matrix (Fin n) (Fin nfn) ℚ
  occs_alpha : Fin nfn → ℚ
  beta : Option (Matrix (Fin n) (Fin nfn) ℚ × (Fin nfn → ℚ))

/-- Modelled from the spec: the slice of the validated container (class
`IOData`, absent from `src/`) relevant to the density-matrix accessors:
the optionally stored full and spin density matrices and the optional
orbital data. -/
structure IOData (n nfn : ℕ) where
  dm_full : Option (Mat n)
  dm_spin : Option (Mat n)
  orbitals : Option (Orbitals n nfn)

/-- The container constructed with no attributes: every slot is absent. -/
def IOData.empty (n nfn : ℕ) : IOData n nfn :=
  { dm_full := none, dm_spin := none, orbitals := none }

/-- Modelled from the spec: weighted outer-product accumulation
`DM[p, q] = Σ_i occ_i · C[p, i] · C[q, i]`. -/
def reconstructDM (n nfn : ℕ) (C : Matrix (Fin n) (Fin nfn) ℚ)
    (occ : Fin nfn → ℚ) : Mat n :=
  Matrix.of fun p q => ∑ i, occ i * C p i * C q i

/-- Modelled from the spec: `get_dm_full` returns the stored full density
matrix when present; otherwise reconstructs it from the orbital data
(summing alpha and beta channels, or doubling the shared channel for a
closed-shell description); otherwise returns the absent value. -/
def IOData.get_dm_full (m : IOData n nfn) : Option (Mat n) :=
  match m.dm_full with
  | some dm => some dm
  | none =>
    match m.orbitals with
    | some o =>
      match o.beta with
      | some (Cb, ob) =>
        some (reconstructDM n nfn o.coeffs_alpha o.occs_alpha +
          reconstructDM n nfn Cb ob)
      | none => some ((2 : ℚ) • reconstructDM n nfn o.coeffs_alpha o.occs_alpha)
    | none => none

/-- Modelled from the spec: `get_dm_spin` returns the stored spin density
matrix when present; otherwise reconstructs alpha minus beta from the
orbital data when both channels are present; otherwise returns the absent
value. -/
def IOData.get_dm_spin (m : IOData n nfn) : Option (Mat n) :=
  match m.dm_spin with
  | some dm => some dm
  | none =>
    match m.orbitals with
    | some o =>
      match o.beta with
      | some (Cb, ob) =>
        some (reconstructDM n nfn o.coeffs_alpha o.occs_alpha -
          reconstructDM n nfn Cb ob)
      | none => none
    | none => none

/-- C6: on the container constructed with no attributes, both derived
density-matrix accessors return the explicit absent value and raise no
error. -/
theorem get_dm_empty (n nfn : ℕ) :
    (IOData.empty n nfn).get_dm_full = none ∧
      (IOData.empty n nfn).get_dm_spin = none :=
  ⟨rfl, rfl⟩

end Iodata
